import Mathlib

/-!
Shallow embedding of `src/mlx_embeddings/models/xlm-roberta.py`.

Tensors are modelled as total functions from ℕ-indices to ℝ (out-of-range
indices are irrelevant: every statement constrains only in-range indices).
Integer token-id tensors are modelled as `List (List ℤ)` (batch of rows).
Black-box runtime primitives of the numeric engine (`mx.cumsum`, `nn.softmax`,
`nn.LayerNorm`'s formula, `mx.arange`) are modelled by their mathematical
definitions; `nn.Dropout` is the identity at inference time, as the spec's
inference contract states.
-/

/-- 3-axis real tensor (batch, seq, channel). -/
abbrev T3 : Type := ℕ → ℕ → ℕ → ℝ

/-- 4-axis real tensor (batch, head, seq, seq-or-head_size). -/
abbrev T4 : Type := ℕ → ℕ → ℕ → ℕ → ℝ

/-- Running cumulative sum starting from accumulator `acc`
(model of `torch.cumsum(·, dim=1)` applied to one row). -/
def cumsumFrom (acc : ℤ) : List ℤ → List ℤ
  | [] => []
  | x :: xs => (acc + x) :: cumsumFrom (acc + x) xs

/-- Inclusive cumulative sum of a row, `torch.cumsum(mask, dim=1)` on one row. -/
def cumsum (l : List ℤ) : List ℤ := cumsumFrom 0 l

/-- One row of `create_position_ids_from_input_ids`:
`mask = input_ids.ne(padding_idx).int()`;
`incremental_indices = (torch.cumsum(mask, dim=1) + past_key_values_length) * mask`;
result `= incremental_indices + padding_idx`. -/
def create_position_ids_row (row : List ℤ) (padding_idx : ℤ)
    (past_key_values_length : ℤ) : List ℤ :=
  let mask := row.map (fun x => if x = padding_idx then (0 : ℤ) else 1)
  let incremental_indices :=
    List.zipWith (fun c m => (c + past_key_values_length) * m) (cumsum mask) mask
  incremental_indices.map (fun v => v + padding_idx)

/-- `create_position_ids_from_input_ids` (source lines 31-44) on a batch:
replace non-padding symbols with their position numbers, positions beginning at
`padding_idx + 1`; padding symbols keep `padding_idx`. -/
def create_position_ids_from_input_ids (input_ids : List (List ℤ))
    (padding_idx : ℤ) (past_key_values_length : ℤ) : List (List ℤ) :=
  input_ids.map (fun row => create_position_ids_row row padding_idx past_key_values_length)

/-- The position ids actually used by `XLMRobertaEmbeddings.__call__`
(source lines 57-67): `input_shape` comes from `input_ids` when present, else
from `inputs_embeds.shape[:-1]`; when `position_ids` is absent the code always
takes `mx.arange(padding_idx + 1, seq_length + padding_idx + 1)[None, :]`
(a single broadcast row). -/
def XLMRobertaEmbeddings_position_ids (padding_idx : ℤ)
    (input_ids : Option (List (List ℤ))) (inputs_embeds_shape : ℕ × ℕ)
    (position_ids : Option (List (List ℤ))) : List (List ℤ) :=
  let input_shape : ℕ × ℕ :=
    match input_ids with
    | some ids => (ids.length, ids.headI.length)
    | none => inputs_embeds_shape
  let seq_length := input_shape.2
  match position_ids with
  | some p => p
  | none => [(List.range seq_length).map (fun i => padding_idx + 1 + (i : ℤ))]

/-- `nn.Linear(inDim, outDim)` applied along the last axis of a 3-tensor:
`y[b,s,j] = (Σ_i x[b,s,i] * W[j,i]) + bias[j]`. -/
def nnLinear (inDim : ℕ) (W : ℕ → ℕ → ℝ) (bias : ℕ → ℝ) (x : T3) : T3 :=
  fun b s j => (∑ i ∈ Finset.range inDim, x b s i * W j i) + bias j

/-- `attention_head_size = int(hidden_size / num_attention_heads)` (source
line 89). -/
def attention_head_size (hidden_size num_attention_heads : ℕ) : ℕ :=
  hidden_size / num_attention_heads

/-- `transpose_for_scores` (source lines 98-101): reshape the last axis of
`(batch, seq, all_head_size)` into `(heads, head_size)` (row-major, so head `h`
takes channels `[h*head_size, (h+1)*head_size)`), then `transpose(0, 2, 1, 3)`. -/
def transpose_for_scores (head_size : ℕ) (x : T3) : T4 :=
  fun b h s d => x b s (h * head_size + d)

/-- `queries @ keys.swapaxes(-1, -2)` followed by the division by
`mx.sqrt(attention_head_size)` (source lines 111-112). -/
noncomputable def scaled_attention_scores (head_size : ℕ) (queries keys : T4) : T4 :=
  fun b h i j =>
    (∑ d ∈ Finset.range head_size, queries b h i d * keys b h j d) /
      Real.sqrt head_size

/-- `nn.softmax(·, axis=-1)` on one row of length `n`. -/
noncomputable def softmaxRow (n : ℕ) (f : ℕ → ℝ) (j : ℕ) : ℝ :=
  Real.exp (f j) / ∑ k ∈ Finset.range n, Real.exp (f k)

/-- Attention probabilities of `XLMRobertaSelfAttention.__call__` (source lines
104-117): project `x` by the query/key linear maps, split heads, compute scaled
scores, add the additive attention mask, softmax over the key axis. -/
noncomputable def XLMRobertaSelfAttention_probs (hidden_size num_attention_heads seq : ℕ)
    (Wq : ℕ → ℕ → ℝ) (bq : ℕ → ℝ) (Wk : ℕ → ℕ → ℝ) (bk : ℕ → ℝ)
    (attention_mask : T4) (x : T3) : T4 :=
  let hs := attention_head_size hidden_size num_attention_heads
  let queries := transpose_for_scores hs (nnLinear hidden_size Wq bq x)
  let keys := transpose_for_scores hs (nnLinear hidden_size Wk bk x)
  fun b h i j =>
    softmaxRow seq
      (fun j2 => scaled_attention_scores hs queries keys b h i j2 +
        attention_mask b h i j2) j

/-- `attention_probs @ values` (source line 122): weighted sum over the key
axis. -/
def attention_context (seq : ℕ) (attention_probs values : T4) : T4 :=
  fun b h s d => ∑ k ∈ Finset.range seq, attention_probs b h s k * values b h k d

/-- Source lines 123-125: `transpose(0, 2, 1, 3)` then reshape the
`(heads, head_size)` axes back into the flat `all_head_size` axis (channel `c`
comes from head `c / head_size`, slot `c % head_size`). -/
def merge_heads (head_size : ℕ) (context_layer : T4) : T3 :=
  fun b s c => context_layer b (c / head_size) s (c % head_size)

/-- A sample concrete value tensor used to instantiate hypotheses of the
head split/merge theorem. -/
def sampleT3 : T3 := fun b s c => (b : ℝ) + s + c

/-- Identity attention probabilities (the identity matrix at every batch
element and head). -/
def identity_probs : T4 := fun _ _ i j => if i = j then 1 else 0

/-- Full context output of `XLMRobertaSelfAttention.__call__` (head_mask
absent, its default): probabilities applied to the split value tensor, heads
merged back. -/
noncomputable def XLMRobertaSelfAttention_call (hidden_size num_attention_heads seq : ℕ)
    (Wq : ℕ → ℕ → ℝ) (bq : ℕ → ℝ) (Wk : ℕ → ℕ → ℝ) (bk : ℕ → ℝ)
    (Wv : ℕ → ℕ → ℝ) (bv : ℕ → ℝ) (attention_mask : T4) (x : T3) : T3 :=
  let hs := attention_head_size hidden_size num_attention_heads
  let values := transpose_for_scores hs (nnLinear hidden_size Wv bv x)
  let attention_probs :=
    XLMRobertaSelfAttention_probs hidden_size num_attention_heads seq
      Wq bq Wk bk attention_mask x
  merge_heads hs (attention_context seq attention_probs values)

/-- Mean over the first `n` channels (`nn.LayerNorm` normalizes over the last
axis). -/
noncomputable def layerNormMean (n : ℕ) (x : ℕ → ℝ) : ℝ :=
  (∑ i ∈ Finset.range n, x i) / n

/-- Population variance over the first `n` channels. -/
noncomputable def layerNormVar (n : ℕ) (x : ℕ → ℝ) : ℝ :=
  (∑ i ∈ Finset.range n, (x i - layerNormMean n x) ^ 2) / n

/-- The `nn.LayerNorm(n, eps)` primitive on one hidden vector:
`(x - mean) / sqrt(var + eps) * scale + shift`. -/
noncomputable def layerNorm (n : ℕ) (eps : ℝ) (scale shift : ℕ → ℝ)
    (x : ℕ → ℝ) : ℕ → ℝ :=
  fun c => (x c - layerNormMean n x) / Real.sqrt (layerNormVar n x + eps) *
    scale c + shift c

/-- `nn.LayerNorm` applied per batch element and position of a 3-tensor. -/
noncomputable def layerNorm3 (n : ℕ) (eps : ℝ) (scale shift : ℕ → ℝ)
    (x : T3) : T3 :=
  fun b s => layerNorm n eps scale shift (fun c => x b s c)

/-- The configuration fields of `ModelArgs` that the embedded components read
(the remaining dataclass fields are loading/tokenization plumbing outside the
embedded computation). `layer_norm_eps` is a floating-point epsilon. -/
structure ModelArgs where
  hidden_size : ℕ
  num_attention_heads : ℕ
  intermediate_size : ℕ
  layer_norm_eps : ℝ

/-- The parameter tensors owned by one `XLMRobertaLayer`: query/key/value
projections, the attention-output projection with its LayerNorm parameters,
the intermediate expansion, and the output contraction with its LayerNorm
parameters. -/
structure XLMRobertaLayerWeights where
  Wq : ℕ → ℕ → ℝ
  bq : ℕ → ℝ
  Wk : ℕ → ℕ → ℝ
  bk : ℕ → ℝ
  Wv : ℕ → ℕ → ℝ
  bv : ℕ → ℝ
  attn_out_W : ℕ → ℕ → ℝ
  attn_out_b : ℕ → ℝ
  attn_ln_scale : ℕ → ℝ
  attn_ln_shift : ℕ → ℝ
  inter_W : ℕ → ℕ → ℝ
  inter_b : ℕ → ℝ
  out_W : ℕ → ℕ → ℝ
  out_b : ℕ → ℝ
  out_ln_scale : ℕ → ℝ
  out_ln_shift : ℕ → ℝ

/-- `XLMRobertaSelfOutput.__call__` (source lines 139-143): dense projection,
dropout (identity at inference), then LayerNorm of `(projected + residual)`. -/
noncomputable def XLMRobertaSelfOutput_call (hidden_size : ℕ) (W : ℕ → ℕ → ℝ)
    (bias : ℕ → ℝ) (eps : ℝ) (scale shift : ℕ → ℝ)
    (hidden_states input_tensor : T3) : T3 :=
  layerNorm3 hidden_size eps scale shift
    (nnLinear hidden_size W bias hidden_states + input_tensor)

/-- `XLMRobertaAttention.__call__` (source lines 151-155): self-attention, then
`XLMRobertaSelfOutput` with the raw block input as residual. -/
noncomputable def XLMRobertaAttention_call (cfg : ModelArgs) (seq : ℕ)
    (w : XLMRobertaLayerWeights) (attention_mask : T4)
    (hidden_states : T3) : T3 :=
  XLMRobertaSelfOutput_call cfg.hidden_size w.attn_out_W w.attn_out_b
    cfg.layer_norm_eps w.attn_ln_scale w.attn_ln_shift
    (XLMRobertaSelfAttention_call cfg.hidden_size cfg.num_attention_heads seq
      w.Wq w.bq w.Wk w.bk w.Wv w.bv attention_mask hidden_states)
    hidden_states

/-- `XLMRobertaIntermediate.__call__` (source lines 162-165): dense expansion
to `intermediate_size`, then the `nn.gelu` primitive (an abstract activation
`act` here). -/
noncomputable def XLMRobertaIntermediate_call (hidden_size : ℕ)
    (W : ℕ → ℕ → ℝ) (bias : ℕ → ℝ) (act : ℝ → ℝ) (hidden_states : T3) : T3 :=
  fun b s j => act (nnLinear hidden_size W bias hidden_states b s j)

/-- `XLMRobertaOutput.__call__` (source lines 174-178): dense contraction from
`intermediate_size` back to `hidden_size`, dropout (identity at inference),
then LayerNorm of `(projected + residual)`. -/
noncomputable def XLMRobertaOutput_call (intermediate_size hidden_size : ℕ)
    (W : ℕ → ℕ → ℝ) (bias : ℕ → ℝ) (eps : ℝ) (scale shift : ℕ → ℝ)
    (hidden_states input_tensor : T3) : T3 :=
  layerNorm3 hidden_size eps scale shift
    (nnLinear intermediate_size W bias hidden_states + input_tensor)

/-- `XLMRobertaLayer.__call__` (source lines 187-193): attention block, then
intermediate, then output with the attention block's output as residual. -/
noncomputable def XLMRobertaLayer_call (cfg : ModelArgs) (seq : ℕ)
    (act : ℝ → ℝ) (w : XLMRobertaLayerWeights) (attention_mask : T4)
    (hidden_states : T3) : T3 :=
  let attention_output := XLMRobertaAttention_call cfg seq w attention_mask
    hidden_states
  let intermediate_output := XLMRobertaIntermediate_call cfg.hidden_size
    w.inter_W w.inter_b act attention_output
  XLMRobertaOutput_call cfg.intermediate_size cfg.hidden_size w.out_W w.out_b
    cfg.layer_norm_eps w.out_ln_scale w.out_ln_shift intermediate_output
    attention_output

/-- A concrete hidden vector used to separate the two residual orders. -/
noncomputable def exampleVec : ℕ → ℝ := fun c => if c = 0 then 1 else -1

/-- Accumulating loop of `XLMRobertaEncoder.__call__` (source lines 205-219):
before each layer the current hidden state is appended to the hidden-state
accumulator (when accumulating), the layer is applied, and its attention
tensor is appended to the attention accumulator (when accumulating); after the
loop the final hidden state is appended. `none` models the Python `None`
marker of an unrequested accumulation. -/
def encoderLoop {H M A : Type} :
    List (H → M → H × A) → M → H → Option (List H) → Option (List A) →
      H × Option (List H) × Option (List A)
  | [], _, h, hs, as => (h, hs.map (fun l => l ++ [h]), as)
  | f :: rest, m, h, hs, as =>
      encoderLoop rest m (f h m).1 (hs.map (fun l => l ++ [h]))
        (as.map (fun l => l ++ [(f h m).2]))

/-- `XLMRobertaEncoder.__call__` (source lines 201-221). A layer module is a
function from (hidden_states, attention_mask) to (hidden_states, attentions);
head masks are absent (their `None` default). The Python code returns the
tuple of the non-`None` entries of `[hidden_states, all_hidden_states,
all_attentions]`; here the three slots are returned with `Option` marking
presence. -/
def XLMRobertaEncoder_call {H M A : Type} (layer : List (H → M → H × A))
    (hidden_states : H) (attention_mask : M)
    (output_attentions output_hidden_states : Bool) :
    H × Option (List H) × Option (List A) :=
  encoderLoop layer attention_mask hidden_states
    (if output_hidden_states then some [] else none)
    (if output_attentions then some [] else none)

/-- The hidden-state sequence the spec describes: the initial embedding output
followed by each layer's output in order. -/
def encoderHiddenStates {H M A : Type} : List (H → M → H × A) → M → H → List H
  | [], _, h => [h]
  | f :: rest, m, h => h :: encoderHiddenStates rest m (f h m).1

/-- The attention sequence the spec describes: each layer's attention tensor
in order. -/
def encoderAttentions {H M A : Type} : List (H → M → H × A) → M → H → List A
  | [], _, _ => []
  | f :: rest, m, h => (f h m).2 :: encoderAttentions rest m (f h m).1

/-- `XLMRobertaPooler.__call__` (source lines 229-235): first-token slice,
dense projection, tanh. -/
noncomputable def XLMRobertaPooler_call (hidden_size : ℕ) (W : ℕ → ℕ → ℝ)
    (bias : ℕ → ℝ) (hidden_states : T3) : ℕ → ℕ → ℝ :=
  fun b j =>
    Real.tanh ((∑ i ∈ Finset.range hidden_size, hidden_states b 0 i * W j i) +
      bias j)

/-- `Model.__call__` (source lines 246-251): embeddings → encoder → optional
pooler. The encoder is invoked with its accumulation flags at their `False`
defaults. The result models the Python
`(sequence_output, pooled_output) + encoder_outputs[1:]`, with `Option`
marking presence of the pooled output and of the encoder extras. -/
def Model_call {I H M A P : Type} (embeddings : I → H)
    (layer : List (H → M → H × A)) (pooler : H → P)
    (add_pooling_layer : Bool) (input_ids : I) (attention_mask : M) :
    H × Option P × Option (List H) × Option (List A) :=
  let embedding_output := embeddings input_ids
  let encoder_outputs :=
    XLMRobertaEncoder_call layer embedding_output attention_mask false false
  let sequence_output := encoder_outputs.1
  let pooled_output :=
    if add_pooling_layer then some (pooler sequence_output) else none
  (sequence_output, pooled_output, encoder_outputs.2.1, encoder_outputs.2.2)

theorem cumsumFrom_shift (a : ℤ) (l : List ℤ) :
    ∀ b : ℤ, cumsumFrom (a + b) l = (cumsumFrom b l).map (fun c => a + c) := by
  induction l with
  | nil => intro b; rfl
  | cons x xs ih =>
      intro b
      rw [cumsumFrom, cumsumFrom, List.map_cons, add_assoc, ih (b + x)]

theorem zipWith_ext {α β γ : Type} (f g : α → β → γ) (h : ∀ a b, f a b = g a b) :
    ∀ (l : List α) (m : List β), List.zipWith f l m = List.zipWith g l m := by
  intro l
  induction l with
  | nil => intro m; rfl
  | cons x xs ih =>
      intro m
      cases m with
      | nil => rfl
      | cons y ys => simp only [List.zipWith_cons_cons, h, ih]

theorem create_position_ids_row_nil (pad past : ℤ) :
    create_position_ids_row [] pad past = [] := rfl

theorem create_position_ids_row_cons (x : ℤ) (xs : List ℤ) (pad past : ℤ) :
    create_position_ids_row (x :: xs) pad past =
      ((if x = pad then (0 : ℤ) else 1 + past) + pad) ::
        create_position_ids_row xs pad (past + (if x = pad then 0 else 1)) := by
  simp only [create_position_ids_row, cumsum, List.map_cons, cumsumFrom,
    zero_add, List.zipWith_cons_cons, List.cons_eq_cons]
  refine ⟨?_, ?_⟩
  · by_cases h : x = pad <;> simp [h]
  · have hshift := cumsumFrom_shift (if x = pad then (0 : ℤ) else 1)
      (xs.map (fun y => if y = pad then (0 : ℤ) else 1)) 0
    rw [add_zero] at hshift
    rw [hshift]
    simp only [List.zipWith_map_left]
    exact congrArg (List.map (fun v => v + pad))
      (zipWith_ext _ _ (fun a b => by ring) _ _)

theorem create_position_ids_row_getD (row : List ℤ) (pad : ℤ) :
    ∀ (past : ℤ) (i : ℕ), i < row.length →
      (create_position_ids_row row pad past).getD i 0 =
        if row.getD i 0 = pad then pad
        else pad + past + ((row.take (i + 1)).countP (fun x => x != pad) : ℤ) := by
  induction row with
  | nil =>
      intro past i h
      exact absurd h (Nat.not_lt_zero i)
  | cons x xs ih =>
      intro past i h
      rw [create_position_ids_row_cons]
      cases i with
      | zero =>
          by_cases hx : x = pad <;>
            simp [hx, List.countP_cons] <;> ring
      | succ n =>
          have hn : n < xs.length := by
            simpa using Nat.lt_of_succ_lt_succ h
          simp only [List.getD_cons_succ, List.take_succ_cons, List.countP_cons]
          rw [ih (past + (if x = pad then 0 else 1)) n hn]
          by_cases hxs : xs.getD n 0 = pad <;>
            by_cases hx : x = pad <;>
              simp [hxs, hx] <;> ring

/-- C4: with past offset 0, the padding-aware computation returns
`position[b,i] = padding_idx + (count of non-padding tokens in input[b, 0..i])`
at non-padding positions and `padding_idx` itself at padding positions; in
particular `[[1,1,5,6,1]]` with `padding_idx = 1` maps to `[[1,1,2,3,1]]`. -/
theorem c4_position_indexer_formula (row : List ℤ) (pad : ℤ) (i : ℕ)
    (h : i < row.length) :
    ((create_position_ids_from_input_ids [row] pad 0).headI.getD i 0 =
        if row.getD i 0 = pad then pad
        else pad + ((row.take (i + 1)).countP (fun x => x != pad) : ℤ))
    ∧ create_position_ids_from_input_ids [[1, 1, 5, 6, 1]] 1 0 = [[1, 1, 2, 3, 1]] := by
  constructor
  · have hgen := create_position_ids_row_getD row pad 0 i h
    rw [add_zero] at hgen
    simpa [create_position_ids_from_input_ids] using hgen
  · decide

theorem c4_position_indexer_formula_witness :
    (((create_position_ids_from_input_ids [[1, 1, 5, 6, 1]] 1 0).headI.getD 3 0 =
        if ([(1 : ℤ), 1, 5, 6, 1].getD 3 0 = 1) then 1
        else 1 + (([(1 : ℤ), 1, 5, 6, 1].take 4).countP (fun x => x != 1) : ℤ))
      ∧ create_position_ids_from_input_ids [[1, 1, 5, 6, 1]] 1 0 = [[1, 1, 2, 3, 1]]) :=
  c4_position_indexer_formula [1, 1, 5, 6, 1] 1 3 (by decide)

/-- C1 (code bug evidence): with `input_ids = [[1,1,5,6,1]]`, `padding_idx = 1`
and `position_ids` absent, `XLMRobertaEmbeddings.__call__` uses the static range
`[[2,3,4,5,6]]`, while the padding-aware `create_position_ids_from_input_ids`
— defined in the file but never invoked — would give `[[1,1,2,3,1]]`. -/
theorem c1_embeddings_ignore_padding_aware_positions :
    XLMRobertaEmbeddings_position_ids 1 (some [[1, 1, 5, 6, 1]]) (1, 5) none
        = [[2, 3, 4, 5, 6]]
    ∧ create_position_ids_from_input_ids [[1, 1, 5, 6, 1]] 1 0 = [[1, 1, 2, 3, 1]]
    ∧ ([[2, 3, 4, 5, 6]] : List (List ℤ)) ≠ [[1, 1, 2, 3, 1]] := by
  refine ⟨by decide, by decide, by decide⟩

/-- C10: with `position_ids` absent, the position ids used by the embedding
layer depend only on the shape of `input_ids` and on `padding_idx`, not on the
token values: two same-shape inputs give identical position-id tensors. -/
theorem c10_position_ids_value_independent (ids1 ids2 : List (List ℤ)) (pad : ℤ)
    (e1 e2 : ℕ × ℕ) (hbatch : ids1.length = ids2.length)
    (hseq : ids1.headI.length = ids2.headI.length) :
    XLMRobertaEmbeddings_position_ids pad (some ids1) e1 none =
      XLMRobertaEmbeddings_position_ids pad (some ids2) e2 none := by
  simp only [XLMRobertaEmbeddings_position_ids, hseq]

theorem c10_position_ids_value_independent_witness :
    XLMRobertaEmbeddings_position_ids 1 (some [[1, 2]]) (1, 2) none =
      XLMRobertaEmbeddings_position_ids 1 (some [[3, 1]]) (9, 9) none :=
  c10_position_ids_value_independent [[1, 2]] [[3, 1]] 1 (1, 2) (9, 9) rfl rfl

theorem softmaxRow_sum (n : ℕ) (f : ℕ → ℝ) (hn : 0 < n) :
    ∑ j ∈ Finset.range n, softmaxRow n f j = 1 := by
  have hpos : 0 < ∑ k ∈ Finset.range n, Real.exp (f k) :=
    Finset.sum_pos (fun k _ => Real.exp_pos (f k))
      (Finset.nonempty_range_iff.mpr hn.ne')
  simp only [softmaxRow]
  rw [← Finset.sum_div, div_self hpos.ne']

/-- C2: the self-attention scores are `(query · keyᵀ) / sqrt(head_size)` with
`head_size = hidden_size / num_attention_heads`: for each head `h` the score is
the dot product of the head-`h` channel slices of the projected queries and
keys divided by `Real.sqrt (hidden_size / num_attention_heads)` (real
division), not divided by `Real.sqrt hidden_size`. -/
theorem c2_scores_scaled_by_sqrt_head_size
    (hidden_size num_attention_heads : ℕ) (Wq Wk : ℕ → ℕ → ℝ) (bq bk : ℕ → ℝ)
    (x : T3) (b h i j : ℕ)
    (hdvd : num_attention_heads ∣ hidden_size)
    (hpos : 0 < num_attention_heads) :
    scaled_attention_scores (attention_head_size hidden_size num_attention_heads)
        (transpose_for_scores (attention_head_size hidden_size num_attention_heads)
          (nnLinear hidden_size Wq bq x))
        (transpose_for_scores (attention_head_size hidden_size num_attention_heads)
          (nnLinear hidden_size Wk bk x)) b h i j =
      (∑ d ∈ Finset.range (hidden_size / num_attention_heads),
          nnLinear hidden_size Wq bq x b i
              (h * (hidden_size / num_attention_heads) + d) *
            nnLinear hidden_size Wk bk x b j
              (h * (hidden_size / num_attention_heads) + d)) /
        Real.sqrt ((hidden_size : ℝ) / (num_attention_heads : ℝ)) := by
  have hne : ((num_attention_heads : ℝ)) ≠ 0 :=
    Nat.cast_ne_zero.mpr hpos.ne'
  have hcast : ((hidden_size / num_attention_heads : ℕ) : ℝ) =
      (hidden_size : ℝ) / (num_attention_heads : ℝ) := Nat.cast_div hdvd hne
  simp only [scaled_attention_scores, transpose_for_scores,
    attention_head_size, hcast]

theorem c2_scores_scaled_by_sqrt_head_size_witness :
    ((2 : ℕ) ∣ 4 ∧ (0 : ℕ) < 2) ∧
      scaled_attention_scores (attention_head_size 4 2)
          (transpose_for_scores (attention_head_size 4 2)
            (nnLinear 4 (fun _ _ => 1) (fun _ => 0) (fun _ _ _ => 1)))
          (transpose_for_scores (attention_head_size 4 2)
            (nnLinear 4 (fun _ _ => 1) (fun _ => 0) (fun _ _ _ => 1))) 0 0 0 0 =
        (∑ d ∈ Finset.range (4 / 2),
            nnLinear 4 (fun _ _ => 1) (fun _ => 0) (fun _ _ _ => 1) 0 0
                (0 * (4 / 2) + d) *
              nnLinear 4 (fun _ _ => 1) (fun _ => 0) (fun _ _ _ => 1) 0 0
                (0 * (4 / 2) + d)) /
          Real.sqrt ((4 : ℝ) / (2 : ℝ)) :=
  ⟨⟨by decide, by decide⟩,
    c2_scores_scaled_by_sqrt_head_size 4 2 (fun _ _ => 1) (fun _ _ => 1)
      (fun _ => 0) (fun _ => 0) (fun _ _ _ => 1) 0 0 0 0 (by decide) (by decide)⟩

/-- C5: each row of the attention-probability tensor sums to 1 over the key
axis, for every input hidden-state tensor, every additive attention mask, and
every batch element, head and query position (nonempty key axis). -/
theorem c5_attention_probs_rows_sum_to_one
    (hidden_size num_attention_heads seq : ℕ)
    (Wq Wk : ℕ → ℕ → ℝ) (bq bk : ℕ → ℝ) (attention_mask : T4) (x : T3)
    (b h i : ℕ) (hseq : 0 < seq) :
    ∑ j ∈ Finset.range seq,
        XLMRobertaSelfAttention_probs hidden_size num_attention_heads seq
          Wq bq Wk bk attention_mask x b h i j = 1 :=
  softmaxRow_sum seq _ hseq

theorem c5_attention_probs_rows_sum_to_one_witness :
    ∑ j ∈ Finset.range 2,
        XLMRobertaSelfAttention_probs 2 1 2 (fun _ _ => 0) (fun _ => 0)
          (fun _ _ => 0) (fun _ => 0) (fun _ _ _ _ => 0) (fun _ _ _ => 0)
          0 0 0 j = 1 :=
  c5_attention_probs_rows_sum_to_one 2 1 2 (fun _ _ => 0) (fun _ _ => 0)
    (fun _ => 0) (fun _ => 0) (fun _ _ _ _ => 0) (fun _ _ _ => 0) 0 0 0
    (by decide)

/-- C6: the head split assigns channel `h*head_size + d` of token `(b, s)` to
head `h` slot `d`, and merging heads after applying identity attention
probabilities to the split value tensor reproduces the original value tensor
exactly. -/
theorem c6_head_split_merge_roundtrip (values : T3)
    (head_size seq b s c hh hd : ℕ) (hlt : s < seq) :
    merge_heads head_size
        (attention_context seq identity_probs
          (transpose_for_scores head_size values)) b s c = values b s c
    ∧ transpose_for_scores head_size values b hh s hd =
        values b s (hh * head_size + hd) := by
  constructor
  · have hc : c / head_size * head_size + c % head_size = c := by
      rw [Nat.mul_comm]
      exact Nat.div_add_mod c head_size
    simp only [merge_heads, attention_context, identity_probs,
      transpose_for_scores, ite_mul, one_mul, zero_mul]
    rw [Finset.sum_ite_eq (Finset.range seq) s,
      if_pos (Finset.mem_range.mpr hlt), hc]
  · rfl

theorem c6_head_split_merge_roundtrip_witness :
    (merge_heads 2
        (attention_context 2 identity_probs
          (transpose_for_scores 2 sampleT3)) 0 1 3 = sampleT3 0 1 3)
    ∧ transpose_for_scores 2 sampleT3 0 1 1 0 = sampleT3 0 1 (1 * 2 + 0) :=
  c6_head_split_merge_roundtrip sampleT3 2 2 0 1 3 1 0 (by decide)

theorem encoderLoop_hidden_none {H M A : Type} (layer : List (H → M → H × A)) :
    ∀ (m : M) (h : H) (as : Option (List A)),
      (encoderLoop layer m h none as).2.1 = none := by
  induction layer with
  | nil => intro m h as; rfl
  | cons f rest ih =>
      intro m h as
      simp only [encoderLoop, Option.map_none']
      exact ih m (f h m).1 _

theorem encoderLoop_attn_none {H M A : Type} (layer : List (H → M → H × A)) :
    ∀ (m : M) (h : H) (hs : Option (List H)),
      (encoderLoop layer m h hs none).2.2 = none := by
  induction layer with
  | nil => intro m h hs; rfl
  | cons f rest ih =>
      intro m h hs
      simp only [encoderLoop, Option.map_none']
      exact ih m (f h m).1 _

theorem encoderLoop_hidden_some {H M A : Type} (layer : List (H → M → H × A)) :
    ∀ (m : M) (h : H) (l : List H) (as : Option (List A)),
      (encoderLoop layer m h (some l) as).2.1 =
        some (l ++ encoderHiddenStates layer m h) := by
  induction layer with
  | nil =>
      intro m h l as
      simp [encoderLoop, encoderHiddenStates]
  | cons f rest ih =>
      intro m h l as
      simp only [encoderLoop, Option.map_some', encoderHiddenStates]
      rw [ih m (f h m).1 (l ++ [h]) _, List.append_assoc]
      rfl

theorem encoderLoop_attn_some {H M A : Type} (layer : List (H → M → H × A)) :
    ∀ (m : M) (h : H) (hs : Option (List H)) (l : List A),
      (encoderLoop layer m h hs (some l)).2.2 =
        some (l ++ encoderAttentions layer m h) := by
  induction layer with
  | nil =>
      intro m h hs l
      simp [encoderLoop, encoderAttentions]
  | cons f rest ih =>
      intro m h hs l
      simp only [encoderLoop, Option.map_some', encoderAttentions]
      rw [ih m (f h m).1 _ (l ++ [(f h m).2]), List.append_assoc]
      rfl

theorem encoderHiddenStates_length {H M A : Type}
    (layer : List (H → M → H × A)) :
    ∀ (m : M) (h : H), (encoderHiddenStates layer m h).length =
      layer.length + 1 := by
  induction layer with
  | nil => intro m h; rfl
  | cons f rest ih =>
      intro m h
      simp only [encoderHiddenStates, List.length_cons, ih m (f h m).1]

theorem encoderAttentions_length {H M A : Type}
    (layer : List (H → M → H × A)) :
    ∀ (m : M) (h : H), (encoderAttentions layer m h).length = layer.length := by
  induction layer with
  | nil => intro m h; rfl
  | cons f rest ih =>
      intro m h
      simp only [encoderAttentions, List.length_cons, ih m (f h m).1]

/-- C7: when hidden-state accumulation is requested the encoder returns `some`
of the list `initial embedding output :: (each layer's output in order)`, of
length `num_hidden_layers + 1`; when attention accumulation is requested it
returns `some` of the per-layer attention list, of length `num_hidden_layers`;
each accumulation is independent of the other flag; an unrequested
accumulation is the absent marker `none`, distinguishable from `some []`. -/
theorem c7_encoder_accumulation {H M A : Type} (layer : List (H → M → H × A))
    (hidden_states : H) (attention_mask : M) (oa oh : Bool) :
    ((XLMRobertaEncoder_call layer hidden_states attention_mask oa true).2.1 =
        some (encoderHiddenStates layer attention_mask hidden_states))
    ∧ (encoderHiddenStates layer attention_mask hidden_states).length =
        layer.length + 1
    ∧ ((XLMRobertaEncoder_call layer hidden_states attention_mask true oh).2.2 =
        some (encoderAttentions layer attention_mask hidden_states))
    ∧ (encoderAttentions layer attention_mask hidden_states).length =
        layer.length
    ∧ (XLMRobertaEncoder_call layer hidden_states attention_mask oa false).2.1 =
        none
    ∧ (XLMRobertaEncoder_call layer hidden_states attention_mask false oh).2.2 =
        none
    ∧ (none : Option (List H)) ≠ some [] := by
  refine ⟨?_, encoderHiddenStates_length layer attention_mask hidden_states,
    ?_, encoderAttentions_length layer attention_mask hidden_states, ?_, ?_,
    by simp⟩
  · have := encoderLoop_hidden_some layer attention_mask hidden_states []
      (if oa then some [] else none)
    simpa [XLMRobertaEncoder_call] using this
  · have := encoderLoop_attn_some layer attention_mask hidden_states
      (if oh then some [] else none) []
    simpa [XLMRobertaEncoder_call] using this
  · exact encoderLoop_hidden_none layer attention_mask hidden_states _
  · exact encoderLoop_attn_none layer attention_mask hidden_states _

/-- C8 counterexample: the claim that a caller of `Model` can opt into
receiving the accumulated sequences is false. At a concrete instance the
Model output carries the absent marker in both accumulation slots, even though
the encoder, when actually asked to accumulate on the very same inputs,
produces nonempty sequences — `Model.__call__` invokes the encoder with both
flags at their false defaults and accepts no way to set them. -/
theorem c8_model_accumulation_unreachable :
    (Model_call (fun n : ℕ => n) [fun h (_ : Unit) => (h + 1, h)]
        (fun h => h) true 5 ()).2.2.1 = none
    ∧ (Model_call (fun n : ℕ => n) [fun h (_ : Unit) => (h + 1, h)]
        (fun h => h) true 5 ()).2.2.2 = none
    ∧ (XLMRobertaEncoder_call [fun h (_ : Unit) => (h + 1, h)] (5 : ℕ) ()
        true true).2.1 = some [5, 6]
    ∧ (XLMRobertaEncoder_call [fun h (_ : Unit) => (h + 1, h)] (5 : ℕ) ()
        true true).2.2 = some [5]
    ∧ (some [5, 6] : Option (List ℕ)) ≠ none :=
  ⟨rfl, rfl, rfl, rfl, by simp⟩

/-- C8 amended: the Model call returns `sequence_output`, then `pooled_output`
(or the absent marker), in that fixed order and nothing else: it invokes the
encoder with both accumulation flags at their false defaults and exposes no
way to set them, so the accumulated hidden-state and attention sequences are
always the absent marker. -/
theorem c8_model_fixed_outputs {I H M A P : Type} (embeddings : I → H)
    (layer : List (H → M → H × A)) (pooler : H → P) (add_pooling_layer : Bool)
    (input_ids : I) (attention_mask : M) :
    (Model_call embeddings layer pooler add_pooling_layer input_ids
        attention_mask).1 =
      (XLMRobertaEncoder_call layer (embeddings input_ids) attention_mask
        false false).1
    ∧ (Model_call embeddings layer pooler add_pooling_layer input_ids
        attention_mask).2.1 =
      (if add_pooling_layer then
        some (pooler (XLMRobertaEncoder_call layer (embeddings input_ids)
          attention_mask false false).1)
      else none)
    ∧ (Model_call embeddings layer pooler add_pooling_layer input_ids
        attention_mask).2.2.1 = none
    ∧ (Model_call embeddings layer pooler add_pooling_layer input_ids
        attention_mask).2.2.2 = none :=
  ⟨rfl, rfl,
    encoderLoop_hidden_none layer attention_mask (embeddings input_ids) none,
    encoderLoop_attn_none layer attention_mask (embeddings input_ids) none⟩

/-- C9: when `add_pooling_layer` is false the Model's pooled output is the
absent marker `none` (never a zero tensor, and the call is total so no
exception); when true it is `some` of `tanh(dense(first-token slice))` of the
final hidden states. -/
theorem c9_pooled_output_presence {I M A : Type} (embeddings : I → T3)
    (layer : List (T3 → M → T3 × A)) (hidden_size : ℕ) (W : ℕ → ℕ → ℝ)
    (bias : ℕ → ℝ) (input_ids : I) (attention_mask : M) :
    (Model_call embeddings layer (XLMRobertaPooler_call hidden_size W bias)
        false input_ids attention_mask).2.1 = none
    ∧ (Model_call embeddings layer (XLMRobertaPooler_call hidden_size W bias)
        true input_ids attention_mask).2.1 =
      some (fun b j => Real.tanh
        ((∑ i ∈ Finset.range hidden_size,
            (XLMRobertaEncoder_call layer (embeddings input_ids)
              attention_mask false false).1 b 0 i * W j i) + bias j)) :=
  ⟨rfl, rfl⟩

/-- C3: the attention-output sublayer produces
`LayerNorm(dense(context) + block input)` and the feed-forward output sublayer
produces `LayerNorm(dense(intermediate) + attention output)` — the residual is
added before normalization, and the residual fed to the feed-forward output is
the attention block's output, not the raw layer input; the final conjunct
separates the two orders at a concrete input, so `normalize(t + r)` is not
`normalize(t) + r`. -/
theorem c3_residual_added_before_layernorm (cfg : ModelArgs) (seq : ℕ)
    (act : ℝ → ℝ) (w : XLMRobertaLayerWeights) (attention_mask : T4)
    (hidden_states : T3) :
    (XLMRobertaAttention_call cfg seq w attention_mask hidden_states =
      layerNorm3 cfg.hidden_size cfg.layer_norm_eps w.attn_ln_scale
        w.attn_ln_shift
        (nnLinear cfg.hidden_size w.attn_out_W w.attn_out_b
            (XLMRobertaSelfAttention_call cfg.hidden_size
              cfg.num_attention_heads seq w.Wq w.bq w.Wk w.bk w.Wv w.bv
              attention_mask hidden_states) + hidden_states))
    ∧ (XLMRobertaLayer_call cfg seq act w attention_mask hidden_states =
      layerNorm3 cfg.hidden_size cfg.layer_norm_eps w.out_ln_scale
        w.out_ln_shift
        (nnLinear cfg.intermediate_size w.out_W w.out_b
            (XLMRobertaIntermediate_call cfg.hidden_size w.inter_W w.inter_b
              act (XLMRobertaAttention_call cfg seq w attention_mask
                hidden_states)) +
          XLMRobertaAttention_call cfg seq w attention_mask hidden_states))
    ∧ layerNorm 2 0 (fun _ => 1) (fun _ => 0) (exampleVec + exampleVec) 0 ≠
      (layerNorm 2 0 (fun _ => 1) (fun _ => 0) exampleVec + exampleVec) 0 := by
  refine ⟨rfl, rfl, ?_⟩
  have hm2 : layerNormMean 2 (exampleVec + exampleVec) = 0 := by
    norm_num [layerNormMean, Finset.sum_range_succ, Pi.add_apply, exampleVec]
  have hv2 : layerNormVar 2 (exampleVec + exampleVec) = 4 := by
    norm_num [layerNormVar, hm2, Finset.sum_range_succ, Pi.add_apply,
      exampleVec]
  have hm1 : layerNormMean 2 exampleVec = 0 := by
    norm_num [layerNormMean, Finset.sum_range_succ, exampleVec]
  have hv1 : layerNormVar 2 exampleVec = 1 := by
    norm_num [layerNormVar, hm1, Finset.sum_range_succ, exampleVec]
  have hs4 : Real.sqrt 4 = 2 := by
    rw [show (4 : ℝ) = 2 ^ 2 by norm_num]
    exact Real.sqrt_sq (by norm_num)
  norm_num [layerNorm, hm2, hv2, hm1, hv1, hs4, Real.sqrt_one, Pi.add_apply,
    exampleVec]
